import Mathlib

/-!
Verification of the process-supervision core of UnrealLocalServerManager.

The definitions below are a shallow embedding of the Python sources
`core.py` and `main_window.py`:

* pure string helpers model Python's `str.lower`, substring tests
  (`in` / `startswith`) and the regular expression
  `-(?:Port|NetPort)=(\d+)` used by `effective_port`
  (case-insensitive leftmost match, greedy digit capture);
* `ServerConfig`, `append_log`, `build_command`, `effective_port` and
  `classify_log_line` embed the corresponding items of `core.py`;
* `logReaderRun` and `stopWorkerRun` embed the observable traces of
  `LogReaderThread.run` and `StopWorker.run` of `main_window.py`,
  with the answers of the external process handle (liveness checks,
  wait outcomes, presence of a stdout stream) passed in as parameters;
* `Runtime` together with the operations `startServer`, `stopServer`,
  `stopFinalize`, `onLogLine`, `onProcessFinished`, `readerGone`,
  `setPublicIp` and `refreshMetricsOne` embeds the per-entity mutable
  state of `MainWindow` (`ServerRuntime` plus the `stop_workers`
  registry) and its lifecycle operations; `Step`/`Reachable` is the
  induced transition system.

Machine floats of the source (`cpu_percent`, `mem_mb`, timestamps) only
ever get assigned externally sampled values or the constant `0.0` in the
modelled operations, so they are embedded as integers.
-/

namespace ULSM

/-! ## String helpers (Python `str.lower`, `in`, `startswith`) -/

/-- Python `s.lower()` on the character list of a string (ASCII letters,
which is all the classifier's and port matcher's patterns use). -/
def lowerList (l : List Char) : List Char := l.map Char.toLower

/-- `startsWithL pat s`: the character list `s` starts with `pat`
(Python `s.startswith(pat)`). -/
def startsWithL : List Char → List Char → Bool
  | [], _ => true
  | _ :: _, [] => false
  | p :: ps, c :: cs => p = c && startsWithL ps cs

/-- `containsSubL pat s`: `pat` occurs as a contiguous substring of `s`
(Python `pat in s`). -/
def containsSubL (pat : List Char) : List Char → Bool
  | [] => startsWithL pat []
  | c :: cs => startsWithL pat (c :: cs) || containsSubL pat cs

/-! ## The regex `-(?:Port|NetPort)=(\d+)` with `re.I`

`matchLit pat l` matches the fixed lowercase pattern `pat`
case-insensitively against a prefix of `l` and returns the remainder;
`digits1` is the greedy `(\d+)` capture returning its value and the
remainder; `matchPortAt` tries the two alternatives at one position
(they can never both match at the same position, since they differ
right after the `-`); `scanPort` is `re.search`'s leftmost scan. -/

def matchLit : List Char → List Char → Option (List Char)
  | [], s => some s
  | _ :: _, [] => none
  | p :: ps, c :: cs => if c.toLower = p then matchLit ps cs else none

/-- Value of a nonempty list of decimal digit characters
(Python `int` on the captured group). -/
def digitsVal (l : List Char) : Nat :=
  l.foldl (fun a c => 10 * a + (c.toNat - 48)) 0

/-- Greedy `(\d+)`: at least one digit, maximal run; value and remainder. -/
def digits1 (l : List Char) : Option (Nat × List Char) :=
  let ds := l.takeWhile Char.isDigit
  if ds.isEmpty then none else some (digitsVal ds, l.dropWhile Char.isDigit)

def portPat : List Char := "-port=".toList

def netPortPat : List Char := "-netport=".toList

def matchPortAt (l : List Char) : Option (Nat × List Char) :=
  match matchLit portPat l with
  | some rest => digits1 rest
  | none =>
    match matchLit netPortPat l with
    | some rest => digits1 rest
    | none => none

def matchPortValAt (l : List Char) : Option Nat := (matchPortAt l).map Prod.fst

/-- Leftmost match of `-(?:Port|NetPort)=(\d+)` (case-insensitive),
returning the captured number. -/
def scanPort : List Char → Option Nat
  | [] => none
  | c :: cs =>
    match matchPortValAt (c :: cs) with
    | some v => some v
    | none => scanPort cs

/-! ## Data model (`core.py`) -/

/-- `ServerConfig` of `core.py`. -/
structure ServerConfig where
  name : String
  engine_path : String
  project_path : String
  port : Nat
  custom_params : String
  id : String
deriving DecidableEq

/-- `ServerRuntime.append_log` of `core.py` with explicit cap:
append, then delete from the front whatever exceeds the cap. -/
def appendLogMax (maxLines : Nat) (lines : List String) (text : String) : List String :=
  let l := lines ++ [text]
  if maxLines < l.length then l.drop (l.length - maxLines) else l

/-- `ServerRuntime.append_log` with its default cap of 8000 lines. -/
def append_log (lines : List String) (text : String) : List String :=
  appendLogMax 8000 lines text

/-- `effective_port` of `core.py`: value of the leftmost
`-(?:Port|NetPort)=(\d+)` match in the custom parameters, else the
configured port. -/
def effective_port (cfg : ServerConfig) : Nat :=
  match scanPort cfg.custom_params.toList with
  | some n => n
  | none => cfg.port

/-- The fixed argument block of `build_command`. -/
def serverFlags : List String := ["-server", "-unattended", "-stdout", "-FullStdOutLogOutput"]

/-- The condition of `build_command`:
`"-port=" in params_lower or "-netport=" in params_lower`. -/
def hasPortParam (custom : String) : Bool :=
  containsSubL portPat (lowerList custom.toList) ||
  containsSubL netPortPat (lowerList custom.toList)

/-- Python truthiness of `cfg.custom_params.strip()`: the string has at
least one non-whitespace character. -/
def stripNonempty (s : String) : Bool := s.toList.any (fun c => !c.isWhitespace)

/-- `build_command` of `core.py`.  The filesystem lookup
`resolve_engine_executable(cfg.engine_path)` is passed in as
`resolveResult` (`none` models Python `None`, handled by `or`), and the
result of `shlex.split(cfg.custom_params)` is passed in as `shlexToks`:
both depend on the environment (filesystem) resp. on the external
`shlex` library and enter the embedding as parameters. -/
def build_command (resolveResult : Option String) (shlexToks : List String)
    (cfg : ServerConfig) : List String :=
  let exe := resolveResult.getD cfg.engine_path
  let cmd := [exe] ++ (if cfg.project_path = "" then [] else [cfg.project_path]) ++ serverFlags
  let cmd := cmd ++ (if hasPortParam cfg.custom_params then [] else ["-Port=" ++ toString cfg.port])
  cmd ++ (if stripNonempty cfg.custom_params then shlexToks else [])

/-- `classify_log_line` of `core.py` (`lowerList line.toList` is the
`low = line.lower()` of the source, inlined at each use). -/
def classify_log_line (line : String) : String :=
  if containsSubL ": error:".toList (lowerList line.toList) ||
      containsSubL " error: ".toList (lowerList line.toList) ||
      startsWithL "error:".toList (lowerList line.toList) then "error"
  else if containsSubL ": warning:".toList (lowerList line.toList) ||
      containsSubL " warning: ".toList (lowerList line.toList) ||
      startsWithL "warning:".toList (lowerList line.toList) then "warning"
  else "info"

/-! ## `LogReaderThread.run` (`main_window.py`)

The thread iterates over the lines of the process's combined output
stream, checking the stop flag before emitting each line, and in a
`finally` block waits for the process and emits exactly one
`process_finished` event (exit code `-1` if the wait raised).  The
stream contents, the stop flag's value at each loop iteration and the
outcome of `popen.wait()` are external inputs and enter as parameters.
The early `return` for a missing stdout stream still runs the
`finally` block. -/

inductive LEvent where
  | line (s : String)
  | finished (rc : Int)
deriving DecidableEq

/-- The `for line in self.popen.stdout` loop: at iteration `i`, if the
stop flag is set the loop breaks, otherwise the line is emitted. -/
def readLoop : List String → (Nat → Bool) → Nat → List LEvent
  | [], _, _ => []
  | l :: rest, stopFlag, i =>
    if stopFlag i then [] else LEvent.line l :: readLoop rest stopFlag (i + 1)

/-- The events emitted by one run of `LogReaderThread.run`.
`stdoutLines = none` models `self.popen.stdout is None`;
`waitRc = none` models `self.popen.wait()` raising. -/
def logReaderRun (stdoutLines : Option (List String)) (stopFlag : Nat → Bool)
    (waitRc : Option Int) : List LEvent :=
  (match stdoutLines with
   | none => []
   | some ls => readLoop ls stopFlag 0) ++ [LEvent.finished (waitRc.getD (-1))]

/-! ## `StopWorker.run` (`main_window.py`)

The worker's observable actions, in program order.  All exceptions are
swallowed; the branch outcomes (platform, whether `send_signal` raises,
the `is_running()` answer, whether `terminate()` raises, whether
`wait(timeout=5)` raises, whether a stdout stream is attached) are
external and enter as parameters.  `wait(timeout=7)` raising changes
nothing afterwards, and `kill()` raising is swallowed with no further
action, so neither needs a parameter. -/

inductive TAct where
  | sendBreak
  | waitSeven
  | checkRunning (alive : Bool)
  | terminate
  | waitFive
  | kill
  | closeOut
  | doneEvent
deriving DecidableEq

structure StopEnv where
  onWindows : Bool
  breakRaises : Bool
  running : Bool
  terminateRaises : Bool
  waitFiveRaises : Bool
  hasOut : Bool
deriving DecidableEq

/-- The action trace of one run of `StopWorker.run`. -/
def stopWorkerRun (e : StopEnv) : List TAct :=
  (if e.onWindows then
      [TAct.sendBreak] ++ (if e.breakRaises then [] else [TAct.waitSeven])
    else []) ++
  [TAct.checkRunning e.running] ++
  (if e.running then
      [TAct.terminate] ++
      (if e.terminateRaises then [TAct.kill]
       else [TAct.waitFive] ++ (if e.waitFiveRaises then [TAct.kill] else []))
    else []) ++
  (if e.hasOut then [TAct.closeOut] else []) ++
  [TAct.doneEvent]

/-- Reading of the claim "each tier checks liveness before acting":
every termination action in the trace is preceded by a liveness check
that answered `true` (the weakest, most charitable reading: any
earlier positive check counts). -/
def liveCheckedFrom : Bool → List TAct → Bool
  | _, [] => true
  | _, TAct.checkRunning true :: rest => liveCheckedFrom true rest
  | seen, TAct.sendBreak :: rest => seen && liveCheckedFrom seen rest
  | seen, TAct.terminate :: rest => seen && liveCheckedFrom seen rest
  | seen, TAct.kill :: rest => seen && liveCheckedFrom seen rest
  | seen, _ :: rest => liveCheckedFrom seen rest

def liveChecked (tr : List TAct) : Bool := liveCheckedFrom false tr

/-! ## The supervisor's per-entity state machine (`MainWindow`)

One `Runtime` is the `ServerRuntime` record of one managed entity,
plus `worker : Bool` for whether a `StopWorker` for this entity is
registered in `MainWindow.stop_workers`.  Process handles are modelled
by their pid; liveness answers (`is_running()`), filesystem lookups,
spawn results, the port probe, the user's confirmation in the
port-in-use dialog, sampled metrics and clock readings are external
and enter as operation parameters.  UI-only effects (table rows,
buttons, the log viewer) are outside the model. -/

inductive SrvState where
  | Offline
  | Starting
  | Running
  | Stopping
  | Stopped
deriving DecidableEq

structure Runtime where
  config : ServerConfig
  process : Option Nat
  ps : Option Nat
  reader : Option Unit
  state : SrvState
  private_ip : String
  public_ip : String
  cpu_percent : Int
  mem_mb : Int
  log_lines : List String
  last_started_ts : Int
  worker : Bool
deriving DecidableEq

/-- A `ServerRuntime` as created by `_add_server` / `_restore_saved_servers`:
dataclass defaults, then `runtime.private_ip = get_private_ip()`. -/
def initRuntime (cfg : ServerConfig) (privIp : String) : Runtime :=
  { config := cfg
    process := none
    ps := none
    reader := none
    state := SrvState.Offline
    private_ip := privIp
    public_ip := "Unknown"
    cpu_percent := 0
    mem_mb := 0
    log_lines := []
    last_started_ts := 0
    worker := false }

/-- External inputs of one `_start_server` call.  `runningAns` is the
answer `srv.process.is_running()` would give (consulted only when a
handle is attached); `resolved = some exe` means
`resolve_engine_executable` found `exe` and `os.path.exists(exe)`
holds; `spawn = none` means `psutil.Popen` raised. -/
structure StartArgs where
  runningAns : Bool
  resolved : Option String
  privIp : String
  portBusy : Bool
  userYes : Bool
  spawn : Option Nat
  shlexToks : List String
  now : Int
deriving DecidableEq

/-- `MainWindow._start_server`: return unchanged when a handle is
attached and answers alive, or when the executable does not resolve;
refresh the private IP; return after the port-in-use dialog when the
user declines, or when the spawn raises; otherwise attach the new
process, enter `Starting`, append the manager-authored command line
and attach a reader. -/
def startServer (r : Runtime) (a : StartArgs) : Runtime :=
  if r.process.isSome && a.runningAns then r
  else
    match a.resolved with
    | none => r
    | some exe =>
      if a.portBusy && !a.userYes then { r with private_ip := a.privIp }
      else
        match a.spawn with
        | none => { r with private_ip := a.privIp }
        | some pid =>
          { r with
            private_ip := a.privIp
            process := some pid
            ps := some pid
            state := SrvState.Starting
            log_lines := append_log r.log_lines
              ("\n[Manager] Started: " ++
                String.intercalate " " (build_command (some exe) a.shlexToks r.config) ++ "\n")
            last_started_ts := a.now
            reader := some () }

/-- `MainWindow._stop_finalize`: pop the worker, set `Stopped`, clear
the handles, zero the readings. -/
def stopFinalize (r : Runtime) : Runtime :=
  { r with
    worker := false
    state := SrvState.Stopped
    process := none
    ps := none
    cpu_percent := 0
    mem_mb := 0 }

/-- `MainWindow._stop_server`: set `Stopping`; with no process handle
fall through to `_stop_finalize` at once, otherwise register and start
a `StopWorker` (whose completion is the separate `stopFinalize` step). -/
def stopServer (r : Runtime) : Runtime :=
  match r.process with
  | none => stopFinalize { r with state := SrvState.Stopping }
  | some _ => { r with state := SrvState.Stopping, worker := true }

/-- `MainWindow._on_log_line`: first line flips `Starting` to `Running`;
the line is appended to the buffer. -/
def onLogLine (r : Runtime) (line : String) : Runtime :=
  if r.state = SrvState.Starting then
    { r with state := SrvState.Running, log_lines := append_log r.log_lines line }
  else
    { r with log_lines := append_log r.log_lines line }

/-- `MainWindow._on_process_finished`: set `Stopped` and append the
manager-authored exit line.  (It touches nothing else.) -/
def onProcessFinished (r : Runtime) (rc : Int) : Runtime :=
  { r with
    state := SrvState.Stopped
    log_lines := append_log r.log_lines
      ("\n[Manager] Process exited with code " ++ toString rc ++ "\n") }

/-- `MainWindow._reader_gone`. -/
def readerGone (r : Runtime) : Runtime := { r with reader := none }

/-- `MainWindow._resolve_public_ip` completing with `ip`. -/
def setPublicIp (r : Runtime) (ip : String) : Runtime := { r with public_ip := ip }

/-- One entity's share of `MainWindow._refresh_metrics`: sample when
`Running` with a live ps handle (failures swallowed), force zero
readings when not `Running`. -/
def refreshMetricsOne (r : Runtime) (psRunning sampleOk : Bool) (cpu mem : Int) : Runtime :=
  if r.ps.isSome && psRunning && r.state = SrvState.Running then
    if sampleOk then { r with cpu_percent := cpu, mem_mb := mem } else r
  else if r.state ≠ SrvState.Running then { r with cpu_percent := 0, mem_mb := 0 }
  else r

/-- One supervisor operation on one entity, as listed by the spec's
invariant section: start, stop, finalize (`StopWorker` completion,
which presupposes a registered worker), log-line receipt,
process-finished receipt, reader teardown, public-IP resolution and a
metrics tick. -/
inductive Step : Runtime → Runtime → Prop where
  | start (r : Runtime) (a : StartArgs) : Step r (startServer r a)
  | stop (r : Runtime) : Step r (stopServer r)
  | finalize (r : Runtime) (h : r.worker = true) : Step r (stopFinalize r)
  | logLine (r : Runtime) (line : String) : Step r (onLogLine r line)
  | procFinished (r : Runtime) (rc : Int) : Step r (onProcessFinished r rc)
  | rGone (r : Runtime) : Step r (readerGone r)
  | pubIp (r : Runtime) (ip : String) : Step r (setPublicIp r ip)
  | metrics (r : Runtime) (psRunning sampleOk : Bool) (cpu mem : Int) :
      Step r (refreshMetricsOne r psRunning sampleOk cpu mem)

/-- States of one entity reachable from its creation. -/
def Reachable (cfg : ServerConfig) (privIp : String) (r : Runtime) : Prop :=
  Relation.ReflTransGen Step (initRuntime cfg privIp) r

/-! ## Concrete fixtures used by counterexamples and witnesses -/

def cfg0 : ServerConfig :=
  { name := "srv"
    engine_path := "C:/UE"
    project_path := "game.uproject"
    port := 7777
    custom_params := ""
    id := "id0" }

def args0 : StartArgs :=
  { runningAns := false
    resolved := some "C:/UE/UnrealEditor.exe"
    privIp := "10.0.0.2"
    portBusy := false
    userYes := true
    spawn := some 1
    shlexToks := []
    now := 5 }

/-- After a successful start: `Starting` with handle `some 1`. -/
def rStarting : Runtime := startServer (initRuntime cfg0 "10.0.0.2") args0

/-- After the first output line: `Running`. -/
def rRunning : Runtime := onLogLine rStarting "LogInit: hello\n"

/-- After a metrics tick sampling cpu 5 and mem 7 while `Running`. -/
def rSampled : Runtime := refreshMetricsOne rRunning true true 5 7

/-- The child exits on its own while `Starting`. -/
def rExited : Runtime := onProcessFinished rStarting 0

/-- The child exits on its own after the metrics sample. -/
def rExitedSampled : Runtime := onProcessFinished rSampled 0

/-! ## C3: bounded FIFO log buffer -/

/-- C3: the log buffer never exceeds 8000 entries after an append
(its length is `min (old + 1) 8000`), and appending to a buffer of
exactly 8000 lines drops exactly the oldest line: the result is the
old lines 2..8000 in order followed by the new line. -/
theorem C3_log_buffer_fifo (lines : List String) (text : String) :
    (append_log lines text).length = min (lines.length + 1) 8000 ∧
    (lines.length = 8000 → append_log lines text = lines.drop 1 ++ [text]) := by
  constructor
  · simp only [append_log, appendLogMax]
    split
    · rename_i hgt
      simp only [List.length_drop, List.length_append, List.length_singleton] at *
      omega
    · rename_i hle
      simp only [List.length_append, List.length_singleton] at *
      omega
  · intro h
    have hlen : (lines ++ [text]).length = 8001 := by
      simp only [List.length_append, List.length_singleton, h]
    simp only [append_log, appendLogMax, hlen]
    rw [if_pos (by norm_num)]
    norm_num
    cases lines with
    | nil => simp at h
    | cons a as => simp

/-- Witness for C3 at a concrete buffer of exactly 8000 lines. -/
theorem C3_log_buffer_fifo_witness :
    (List.replicate 8000 "a").length = 8000 ∧
    append_log (List.replicate 8000 "a") "b" = (List.replicate 8000 "a").drop 1 ++ ["b"] :=
  ⟨List.length_replicate 8000 "a",
   (C3_log_buffer_fifo (List.replicate 8000 "a") "b").2 (List.length_replicate 8000 "a")⟩

/-! ## C4: stopping an Offline entity -/

/-- C4 fails on the code: stopping a freshly created (`Offline`) entity
is not a no-op — `_stop_server` unconditionally sets `Stopping` and,
having no process handle, falls through to `_stop_finalize`, leaving
the entity `Stopped`. -/
theorem C4_counterexample :
    (initRuntime cfg0 "10.0.0.2").state = SrvState.Offline ∧
    stopServer (initRuntime cfg0 "10.0.0.2") ≠ initRuntime cfg0 "10.0.0.2" ∧
    (stopServer (initRuntime cfg0 "10.0.0.2")).state = SrvState.Stopped := by
  refine ⟨rfl, ?_, rfl⟩
  intro h
  have := congrArg Runtime.state h
  simp [stopServer, stopFinalize, initRuntime] at this

/-- C4 amended: stopping an entity with no live process handle skips
the Terminator and finalizes at once — the state becomes `Stopped`
(not preserved), the handle stays cleared and the readings are zero;
config, log and the remaining fields are untouched. -/
theorem C4_stop_no_process (r : Runtime) (h : r.process = none) :
    stopServer r =
      { r with
        state := SrvState.Stopped
        ps := none
        cpu_percent := 0
        mem_mb := 0
        worker := false } := by
  cases r with
  | mk config process ps reader state priv pub cpu mem log ts worker =>
    cases h
    rfl

/-- Witness for C4 amended at the initial runtime. -/
theorem C4_stop_no_process_witness :
    (initRuntime cfg0 "10.0.0.2").process = none ∧
    stopServer (initRuntime cfg0 "10.0.0.2") =
      { initRuntime cfg0 "10.0.0.2" with
        state := SrvState.Stopped
        ps := none
        cpu_percent := 0
        mem_mb := 0
        worker := false } :=
  ⟨rfl, C4_stop_no_process _ rfl⟩

/-! ## C7: start is idempotent on a live handle -/

/-- C7: `_start_server` on an entity whose process handle is attached
and answers `is_running()` with `True` returns without touching the
entity: the second of two back-to-back starts is a no-op. -/
theorem C7_start_idempotent (r : Runtime) (a : StartArgs)
    (hlive : r.process.isSome = true) (hans : a.runningAns = true) :
    startServer r a = r := by
  simp [startServer, hlive, hans]

/-- Witness for C7 at the post-start fixture. -/
theorem C7_start_idempotent_witness :
    rStarting.process.isSome = true ∧
    startServer rStarting
      { runningAns := true
        resolved := some "C:/UE/UnrealEditor.exe"
        privIp := "10.0.0.9"
        portBusy := true
        userYes := false
        spawn := some 2
        shlexToks := []
        now := 9 } = rStarting :=
  ⟨by decide, C7_start_idempotent _ _ (by decide) rfl⟩

/-! ## C10: log classifier -/

/-- C10 fails as stated: `"Warning: disk"` is neither of the two named
lines, yet it classifies as `warning`, not `info` (the classifier works
by substring/startswith heuristics, not by matching those two lines). -/
theorem C10_counterexample :
    classify_log_line "Warning: disk" = "warning" ∧
    "Warning: disk" ≠ "LogTemp: Warning: something" ∧
    "Warning: disk" ≠ "LogTemp: Error: failed" ∧
    ("warning" : String) ≠ "info" := by
  refine ⟨by decide, by decide, by decide, by decide⟩

/-- C10 amended: the two scenario lines classify as `warning` resp.
`error`, and every line classifies as exactly one of the three
severities (error substrings are checked first, then warning ones,
else `info` — so lines matching neither heuristic map to `info`). -/
theorem C10_classifier :
    classify_log_line "LogTemp: Warning: something" = "warning" ∧
    classify_log_line "LogTemp: Error: failed" = "error" ∧
    ∀ l : String, classify_log_line l = "error" ∨ classify_log_line l = "warning" ∨
      classify_log_line l = "info" := by
  refine ⟨by decide, by decide, ?_⟩
  intro l
  unfold classify_log_line
  split
  · exact Or.inl rfl
  · split
    · exact Or.inr (Or.inl rfl)
    · exact Or.inr (Or.inr rfl)

/-! ## C2: transitions into `Stopped` -/

/-- C2 fails on the code: the natural-exit path into `Stopped` does not
clear the handle or reset the readings.  Concretely: start, first log
line, one metrics sample (cpu 5, mem 7), then the LogReader reports the
process finished — a reachable `Step` into `Stopped` after which the
process handle is still attached and the readings are still 5 and 7. -/
theorem C2_counterexample :
    Reachable cfg0 "10.0.0.2" rSampled ∧
    Step rSampled rExitedSampled ∧
    rSampled.state ≠ SrvState.Stopped ∧
    rExitedSampled.state = SrvState.Stopped ∧
    ¬(rExitedSampled.process = none ∧ rExitedSampled.cpu_percent = 0 ∧
      rExitedSampled.mem_mb = 0) := by
  refine ⟨?_, Step.procFinished rSampled 0, by decide, by decide, by decide⟩
  exact Relation.ReflTransGen.tail
    (Relation.ReflTransGen.tail
      (Relation.ReflTransGen.single (Step.start _ args0))
      (Step.logLine rStarting "LogInit: hello\n"))
    (Step.metrics rRunning true true 5 7)

/-- C2 amended: the Terminator-completion path into `Stopped`
(`_stop_finalize`) clears the process handle and zeroes the readings,
while the natural-exit path (`_on_process_finished`) only sets
`Stopped` and appends the manager-authored exit line, leaving the
handle and the readings untouched (they are zeroed at the next metrics
tick, not by this transition). -/
theorem C2_stopped_transitions (r : Runtime) (rc : Int) :
    ((stopFinalize r).state = SrvState.Stopped ∧
      (stopFinalize r).process = none ∧
      (stopFinalize r).cpu_percent = 0 ∧
      (stopFinalize r).mem_mb = 0) ∧
    ((onProcessFinished r rc).state = SrvState.Stopped ∧
      (onProcessFinished r rc).process = r.process ∧
      (onProcessFinished r rc).cpu_percent = r.cpu_percent ∧
      (onProcessFinished r rc).mem_mb = r.mem_mb ∧
      (onProcessFinished r rc).log_lines =
        append_log r.log_lines
          ("\n[Manager] Process exited with code " ++ toString rc ++ "\n")) := by
  refine ⟨⟨rfl, rfl, rfl, rfl⟩, ⟨rfl, rfl, rfl, rfl, rfl⟩⟩

/-! ## C1: the handle/state invariant -/

/-- C1 fails as an `iff`: after a start and a natural process exit the
entity is reachable in state `Stopped` with the process handle still
attached (`_on_process_finished` never clears it). -/
theorem C1_counterexample :
    Reachable cfg0 "10.0.0.2" rExited ∧
    rExited.state = SrvState.Stopped ∧
    rExited.process = some 1 ∧
    ¬((rExited.state = SrvState.Starting ∨ rExited.state = SrvState.Running ∨
        rExited.state = SrvState.Stopping) ↔ rExited.process ≠ none) := by
  refine ⟨?_, by decide, by decide, by decide⟩
  exact Relation.ReflTransGen.tail
    (Relation.ReflTransGen.single (Step.start _ args0))
    (Step.procFinished rStarting 0)

/-- Every single supervisor operation preserves "an active state has an
attached handle". -/
theorem step_preserves_active (x y : Runtime) (hstep : Step x y)
    (hx : (x.state = SrvState.Starting ∨ x.state = SrvState.Running ∨
      x.state = SrvState.Stopping) → x.process.isSome = true) :
    (y.state = SrvState.Starting ∨ y.state = SrvState.Running ∨
      y.state = SrvState.Stopping) → y.process.isSome = true := by
  cases hstep with
  | start a =>
    by_cases h1 : (x.process.isSome && a.runningAns) = true
    · simp only [startServer, if_pos h1]; exact hx
    · simp only [startServer, if_neg h1]
      cases hres : a.resolved with
      | none => exact hx
      | some exe =>
        by_cases h2 : (a.portBusy && !a.userYes) = true
        · simp only [if_pos h2]; exact hx
        · simp only [if_neg h2]
          cases hsp : a.spawn with
          | none => exact hx
          | some pid => intro _; rfl
  | stop =>
    cases hp : x.process with
    | none =>
      simp only [stopServer, hp]
      intro habs
      simp [stopFinalize] at habs
    | some pid =>
      simp only [stopServer, hp]
      intro _; rfl
  | finalize hw =>
    intro habs
    simp [stopFinalize] at habs
  | logLine line =>
    by_cases h1 : x.state = SrvState.Starting
    · simp only [onLogLine, if_pos h1]
      intro _; exact hx (Or.inl h1)
    · simp only [onLogLine, if_neg h1]
      exact hx
  | procFinished rc =>
    intro habs
    simp [onProcessFinished] at habs
  | rGone => exact hx
  | pubIp ip => exact hx
  | metrics psRunning sampleOk cpu mem =>
    unfold refreshMetricsOne
    split
    · split
      · exact hx
      · exact hx
    · split
      · exact hx
      · exact hx

/-- C1 amended: only the forward direction of the invariant holds at
every reachable point: whenever the state is `Starting`, `Running` or
`Stopping`, a process handle is attached.  (The converse fails, see the
counterexample.) -/
theorem C1_handle_of_active (cfg : ServerConfig) (privIp : String) (r : Runtime)
    (h : Reachable cfg privIp r)
    (hs : r.state = SrvState.Starting ∨ r.state = SrvState.Running ∨
      r.state = SrvState.Stopping) :
    r.process.isSome = true := by
  revert hs
  unfold Reachable at h
  induction h with
  | refl => intro hs; simp [initRuntime] at hs
  | tail hr hstep ih => exact step_preserves_active _ _ hstep ih

/-- Witness for C1 amended at the post-start fixture. -/
theorem C1_handle_of_active_witness :
    Reachable cfg0 "10.0.0.2" rStarting ∧ rStarting.process.isSome = true :=
  ⟨Relation.ReflTransGen.single (Step.start _ args0),
   C1_handle_of_active cfg0 "10.0.0.2" rStarting
     (Relation.ReflTransGen.single (Step.start _ args0)) (Or.inl (by decide))⟩

/-! ## C5: the Terminator (`StopWorker.run`) -/

/-- The dead-process-on-Windows environment: `send_signal` raises (the
process is gone), `is_running()` answers `False`, a stdout stream is
attached. -/
def deadWinEnv : StopEnv :=
  { onWindows := true
    breakRaises := true
    running := false
    terminateRaises := false
    waitFiveRaises := false
    hasOut := true }

/-- C5 fails as stated: on a process that already exited, the first
tier (the graceful CTRL_BREAK signal) acts without any preceding
liveness check — the only `is_running()` check in `StopWorker.run`
guards the terminate tier, and it happens after the signal was already
sent.  So "each tier checking liveness before acting" is false, even
in its weakest reading. -/
theorem C5_counterexample :
    stopWorkerRun deadWinEnv =
      [TAct.sendBreak, TAct.checkRunning false, TAct.closeOut, TAct.doneEvent] ∧
    liveChecked (stopWorkerRun deadWinEnv) = false ∧
    (stopWorkerRun deadWinEnv).countP (fun a => a = TAct.doneEvent) = 1 := by
  refine ⟨by decide, by decide, by decide⟩

/-- C5 amended: in every environment, `StopWorker.run` emits exactly
one completion event, as the last action; the stream handle is closed
(when one is attached) as the final step before that event, regardless
of which tier succeeded; the graceful-signal tier runs exactly on
Windows and unconditionally (errors swallowed, no liveness check); the
terminate tier (bounded 5s wait) runs iff the single liveness check
answered alive; the unconditional kill runs iff the process was alive
and terminate raised or its wait timed out — so an already-exited
process produces no error and still yields the one completion event. -/
theorem C5_terminator_contract : ∀ w br run tr w5 out : Bool,
    (stopWorkerRun ⟨w, br, run, tr, w5, out⟩).countP (fun a => a = TAct.doneEvent) = 1 ∧
    (stopWorkerRun ⟨w, br, run, tr, w5, out⟩).getLast? = some TAct.doneEvent ∧
    ((TAct.sendBreak ∈ stopWorkerRun ⟨w, br, run, tr, w5, out⟩) ↔ w = true) ∧
    ((TAct.waitSeven ∈ stopWorkerRun ⟨w, br, run, tr, w5, out⟩) ↔ (w = true ∧ br = false)) ∧
    ((TAct.terminate ∈ stopWorkerRun ⟨w, br, run, tr, w5, out⟩) ↔ run = true) ∧
    ((TAct.waitFive ∈ stopWorkerRun ⟨w, br, run, tr, w5, out⟩) ↔
      (run = true ∧ tr = false)) ∧
    ((TAct.kill ∈ stopWorkerRun ⟨w, br, run, tr, w5, out⟩) ↔
      (run = true ∧ (tr = true ∨ w5 = true))) ∧
    ((TAct.closeOut ∈ stopWorkerRun ⟨w, br, run, tr, w5, out⟩) ↔ out = true) ∧
    (out = true →
      (stopWorkerRun ⟨w, br, run, tr, w5, out⟩).dropLast.getLast? = some TAct.closeOut) := by
  decide

/-! ## C6: the LogReader (`LogReaderThread.run`) -/

/-- All standard-severity events of `readLoop` are an in-order take of
the stream. -/
theorem readLoop_eq_take (ls : List String) (stopFlag : Nat → Bool) :
    ∀ i, ∃ k, readLoop ls stopFlag i = (ls.take k).map LEvent.line := by
  induction ls with
  | nil => intro i; exact ⟨0, rfl⟩
  | cons l rest ih =>
    intro i
    rw [readLoop]
    by_cases h : stopFlag i = true
    · exact ⟨0, by rw [if_pos h]; rfl⟩
    · obtain ⟨k, hk⟩ := ih (i + 1)
      exact ⟨k + 1, by rw [if_neg h, hk]; rfl⟩

/-- C6: over any stream (including an absent or empty one), the
LogReader emits an in-order prefix of the stream's lines, then exactly
one terminal `process_finished` event carrying the wait's exit code
(the sentinel `-1` when the wait itself failed), and nothing after it:
the terminal event is the last one emitted. -/
theorem C6_reader_events (stdoutLines : Option (List String)) (stopFlag : Nat → Bool)
    (waitRc : Option Int) :
    (∃ k, logReaderRun stdoutLines stopFlag waitRc =
      ((stdoutLines.getD []).take k).map LEvent.line ++
        [LEvent.finished (waitRc.getD (-1))]) ∧
    (logReaderRun stdoutLines stopFlag waitRc).countP
      (fun e => match e with | LEvent.finished _ => true | _ => false) = 1 ∧
    (logReaderRun stdoutLines stopFlag waitRc).getLast? =
      some (LEvent.finished (waitRc.getD (-1))) := by
  have hmain : ∃ k, logReaderRun stdoutLines stopFlag waitRc =
      ((stdoutLines.getD []).take k).map LEvent.line ++
        [LEvent.finished (waitRc.getD (-1))] := by
    cases stdoutLines with
    | none => exact ⟨0, rfl⟩
    | some ls =>
      obtain ⟨k, hk⟩ := readLoop_eq_take ls stopFlag 0
      exact ⟨k, by rw [logReaderRun, hk]; rfl⟩
  refine ⟨hmain, ?_, ?_⟩
  · obtain ⟨k, hk⟩ := hmain
    rw [hk, List.countP_append, List.countP_map]
    simp [List.countP_cons, Function.comp_def, List.countP_eq_zero]
  · obtain ⟨k, hk⟩ := hmain
    rw [hk, List.getLast?_concat]

/-! ## C8: the effective port -/

/-- A config whose custom arguments hold both a `-NetPort=` and a
`-Port=` token. -/
def cfgPorts : ServerConfig :=
  { name := "srv"
    engine_path := "C:/UE"
    project_path := "game.uproject"
    port := 7777
    custom_params := "-NetPort=8888 -Port=9000"
    id := "id1" }

/-- C8 fails as stated: these custom arguments contain `-Port=9000`
(both as a substring and as a well-formed token), yet the effective
port is 8888 — `re.search` takes the leftmost `-Port=`/`-NetPort=`
match, not the `-Port=N` occurrence. -/
theorem C8_counterexample :
    containsSubL "-Port=9000".toList cfgPorts.custom_params.toList = true ∧
    effective_port cfgPorts = 8888 ∧
    (8888 : Nat) ≠ 9000 := by
  refine ⟨by decide, by decide, by decide⟩

theorem matchLit_cons {p c : Char} {ps : List Char} (cs : List Char) (h : c.toLower = p) :
    matchLit (p :: ps) (c :: cs) = matchLit ps cs := by
  simp [matchLit, h]

/-- The matcher at a `-Port=`-shaped position: the literal matches
case-insensitively and the greedy capture takes the whole digit block. -/
theorem scanPort_dashPort (ds : List Char) (hne : ds ≠ [])
    (hds : ∀ c ∈ ds, c.isDigit = true) :
    scanPort ('-' :: 'P' :: 'o' :: 'r' :: 't' :: '=' :: ds) = some (digitsVal ds) := by
  have hpat : portPat = ['-', 'p', 'o', 'r', 't', '='] := by decide
  have hml : matchLit portPat ('-' :: 'P' :: 'o' :: 'r' :: 't' :: '=' :: ds) = some ds := by
    rw [hpat, matchLit_cons _ (by decide), matchLit_cons _ (by decide),
      matchLit_cons _ (by decide), matchLit_cons _ (by decide), matchLit_cons _ (by decide),
      matchLit_cons _ (by decide)]
    rfl
  have htake : ds.takeWhile Char.isDigit = ds :=
    List.takeWhile_eq_self_iff.mpr (by simpa using hds)
  have hemp : ds.isEmpty = false := by
    cases ds with
    | nil => exact absurd rfl hne
    | cons a as => rfl
  have hd1 : digits1 ds = some (digitsVal ds, ds.dropWhile Char.isDigit) := by
    simp only [digits1, htake, hemp]
    rfl
  have hmv : matchPortValAt ('-' :: 'P' :: 'o' :: 'r' :: 't' :: '=' :: ds) =
      some (digitsVal ds) := by
    unfold matchPortValAt matchPortAt
    rw [hml]
    show Option.map Prod.fst (digits1 ds) = some (digitsVal ds)
    rw [hd1]
    rfl
  unfold scanPort
  rw [hmv]

/-- The definition of `effective_port`, restated for rewriting. -/
theorem effective_port_eq (cfg : ServerConfig) :
    effective_port cfg =
      match scanPort cfg.custom_params.toList with
      | some n => n
      | none => cfg.port := rfl

/-- C8 amended: with no custom arguments the effective port is the
configured port; when the custom arguments are exactly one well-formed
`-Port=N` token (digits `ds`), the effective port is `N`, regardless of
the configured port.  (With several `-Port=`/`-NetPort=` occurrences
the leftmost match wins, as the counterexample shows, so "contains
`-Port=N`" alone does not determine the port.) -/
theorem C8_effective_port (name ep pp idv : String) (port : Nat) (ds : List Char)
    (hne : ds ≠ []) (hds : ∀ c ∈ ds, c.isDigit = true) :
    effective_port
      { name := name, engine_path := ep, project_path := pp, port := port,
        custom_params := "", id := idv } = port ∧
    effective_port
      { name := name, engine_path := ep, project_path := pp, port := port,
        custom_params := ⟨'-' :: 'P' :: 'o' :: 'r' :: 't' :: '=' :: ds⟩, id := idv } =
      digitsVal ds := by
  constructor
  · rfl
  · show (match scanPort ('-' :: 'P' :: 'o' :: 'r' :: 't' :: '=' :: ds) with
          | some n => n
          | none => port) = digitsVal ds
    rw [scanPort_dashPort ds hne hds]

/-- Witness for C8 amended at digits `9000` and configured port 1234. -/
theorem C8_effective_port_witness :
    (['9', '0', '0', '0'] : List Char) ≠ [] ∧
    effective_port
      { name := "s", engine_path := "e", project_path := "p", port := 1234,
        custom_params := ⟨'-' :: 'P' :: 'o' :: 'r' :: 't' :: '=' :: ['9', '0', '0', '0']⟩,
        id := "i" } = digitsVal ['9', '0', '0', '0'] :=
  ⟨by decide,
   (C8_effective_port "s" "e" "p" "i" 1234 ['9', '0', '0', '0'] (by decide) (by decide)).2⟩

/-! ## C9: agreement between `build_command` and `effective_port`

`carriedPort` follows the claim's words "the port carried by the
command built by `build_command`": the leftmost case-insensitive
`-Port=`/`-NetPort=` digit match across the argument vector in order —
the same matching semantics `effective_port` applies to the raw
custom-params string.  `charsJoin` captures the configurations for
which the external `shlex.split` is plain whitespace splitting: custom
parameters that are nonempty whitespace-free tokens joined by single
spaces (no quoting or escapes). -/

def carriedPort : List String → Option Nat
  | [] => none
  | t :: rest =>
    match scanPort t.toList with
    | some v => some v
    | none => carriedPort rest

/-- A well-formed `-Port=N` / `-NetPort=N` token: any letter case,
`N` a nonempty digit run, nothing after it. -/
def isPortToken (t : String) : Bool :=
  match matchPortAt t.toList with
  | some (_, []) => true
  | _ => false

/-- Character lists joined by single spaces. -/
def charsJoin : List (List Char) → List Char
  | [] => []
  | [t] => t
  | t :: rest => t ++ ' ' :: charsJoin rest

/-- First hit of the port scanner over a token list. -/
def firstScan : List (List Char) → Option Nat
  | [] => none
  | t :: rest =>
    match scanPort t with
    | some v => some v
    | none => firstScan rest

/-- A space appended behind the subject cannot complete a literal
match: each pattern character is a non-space character. -/
theorem matchLit_append_space (pat : List Char) :
    ∀ u w : List Char, ' ' ∉ pat →
      matchLit pat (u ++ ' ' :: w) = (matchLit pat u).map (· ++ ' ' :: w) := by
  induction pat with
  | nil => intro u w _; rfl
  | cons p ps ih =>
    intro u w hsp
    have hp : p ≠ ' ' := fun h => hsp (by rw [← h]; exact List.mem_cons_self p ps)
    cases u with
    | nil =>
      simp only [List.nil_append, matchLit]
      rw [if_neg (by rw [show Char.toLower ' ' = ' ' from by decide]; exact fun h => hp h.symm)]
      rfl
    | cons c cs =>
      by_cases h : c.toLower = p
      · simp only [List.cons_append]
        rw [matchLit_cons _ h, matchLit_cons _ h]
        exact ih cs w (fun hm => hsp (List.mem_cons_of_mem p hm))
      · simp only [List.cons_append, matchLit]
        rw [if_neg h, if_neg h]
        rfl

/-- The greedy digit capture stops at a space. -/
theorem takeWhile_append_space (a w : List Char) :
    (a ++ ' ' :: w).takeWhile Char.isDigit = a.takeWhile Char.isDigit := by
  induction a with
  | nil =>
    rw [List.nil_append, List.takeWhile_cons]
    rw [if_neg (by decide)]
    rfl
  | cons c cs ih =>
    rw [List.cons_append, List.takeWhile_cons, List.takeWhile_cons]
    cases h : Char.isDigit c
    · simp
    · simp [ih]

theorem digits1_fst_append_space (u w : List Char) :
    (digits1 (u ++ ' ' :: w)).map Prod.fst = (digits1 u).map Prod.fst := by
  simp only [digits1, takeWhile_append_space]
  split
  · rfl
  · simp

theorem matchPortValAt_append_space (u w : List Char) :
    matchPortValAt (u ++ ' ' :: w) = matchPortValAt u := by
  unfold matchPortValAt matchPortAt
  rw [matchLit_append_space portPat u w (by decide),
    matchLit_append_space netPortPat u w (by decide)]
  cases h1 : matchLit portPat u with
  | some rest =>
    show (digits1 (rest ++ ' ' :: w)).map Prod.fst = (digits1 rest).map Prod.fst
    exact digits1_fst_append_space rest w
  | none =>
    cases h2 : matchLit netPortPat u with
    | some rest =>
      show (digits1 (rest ++ ' ' :: w)).map Prod.fst = (digits1 rest).map Prod.fst
      exact digits1_fst_append_space rest w
    | none => rfl

theorem matchPortValAt_nil : matchPortValAt [] = none := rfl

theorem scanPort_cons (c : Char) (cs : List Char) :
    scanPort (c :: cs) =
      match matchPortValAt (c :: cs) with
      | some v => some v
      | none => scanPort cs := rfl

/-- `re.search` over a space-separated concatenation: the leftmost
match is the match of the left part, falling back to the right part. -/
theorem scanPort_append_space (u w : List Char) :
    scanPort (u ++ ' ' :: w) =
      match scanPort u with
      | some v => some v
      | none => scanPort w := by
  induction u with
  | nil =>
    rw [List.nil_append, scanPort_cons]
    have h0 : matchPortValAt (' ' :: w) = none := by
      have h := matchPortValAt_append_space [] w
      rw [List.nil_append, matchPortValAt_nil] at h
      exact h
    rw [h0]
    rfl
  | cons c cs ih =>
    rw [List.cons_append, scanPort_cons]
    have hm : matchPortValAt (c :: (cs ++ ' ' :: w)) = matchPortValAt (c :: cs) := by
      have h := matchPortValAt_append_space (c :: cs) w
      rw [List.cons_append] at h
      exact h
    rw [hm]
    cases hv : matchPortValAt (c :: cs) with
    | some v => rw [scanPort_cons, hv]
    | none => rw [scanPort_cons, hv, ih]

theorem scanPort_charsJoin : ∀ ts : List (List Char),
    scanPort (charsJoin ts) = firstScan ts := by
  intro ts
  induction ts with
  | nil => rfl
  | cons t rest ih =>
    cases rest with
    | nil =>
      show scanPort t = firstScan [t]
      cases h : scanPort t with
      | some v => simp [firstScan, h]
      | none => simp [firstScan, h]
    | cons u rest2 =>
      show scanPort (t ++ ' ' :: charsJoin (u :: rest2)) = firstScan (t :: u :: rest2)
      rw [scanPort_append_space, ih]
      cases h : scanPort t with
      | some v => simp [firstScan, h]
      | none => simp [firstScan, h]

theorem carriedPort_cons (t : String) (rest : List String) :
    carriedPort (t :: rest) =
      match scanPort t.toList with
      | some v => some v
      | none => carriedPort rest := rfl

theorem carriedPort_none_cons (t : String) (rest : List String)
    (h : scanPort t.toList = none) : carriedPort (t :: rest) = carriedPort rest := by
  rw [carriedPort_cons, h]

theorem carriedPort_eq_firstScan : ∀ ts : List String,
    carriedPort ts = firstScan (ts.map String.toList) := by
  intro ts
  induction ts with
  | nil => rfl
  | cons t rest ih =>
    rw [List.map_cons, carriedPort_cons]
    cases h : scanPort t.toList with
    | some v =>
      have h' : scanPort t.data = some v := h
      simp [firstScan, h']
    | none =>
      have h' : scanPort t.data = none := h
      simp [firstScan, h', ih]

/-- A successful literal match means the lowered subject starts with
the pattern. -/
theorem startsWithL_of_matchLit : ∀ (pat l r : List Char),
    matchLit pat l = some r → startsWithL pat (lowerList l) = true := by
  intro pat
  induction pat with
  | nil => intro l r _; rfl
  | cons p ps ih =>
    intro l r h
    cases l with
    | nil => simp [matchLit] at h
    | cons c cs =>
      by_cases hc : c.toLower = p
      · rw [matchLit_cons _ hc] at h
        show startsWithL (p :: ps) (c.toLower :: lowerList cs) = true
        simp only [startsWithL, Bool.and_eq_true, decide_eq_true_eq]
        exact ⟨hc.symm, ih cs r h⟩
      · simp only [matchLit, if_neg hc] at h
        exact Option.noConfusion h

theorem containsSubL_of_startsWith (pat s : List Char) (h : startsWithL pat s = true) :
    containsSubL pat s = true := by
  cases s with
  | nil => exact h
  | cons c cs => simp [containsSubL, h]

theorem startsWithL_append (pat : List Char) : ∀ s w : List Char,
    startsWithL pat s = true → startsWithL pat (s ++ w) = true := by
  induction pat with
  | nil => intro s w _; rfl
  | cons p ps ih =>
    intro s w h
    cases s with
    | nil => simp [startsWithL] at h
    | cons c cs =>
      simp only [List.cons_append, startsWithL, Bool.and_eq_true, decide_eq_true_eq] at h ⊢
      exact ⟨h.1, ih cs w h.2⟩

theorem containsSubL_nil_pat : ∀ s : List Char, containsSubL [] s = true
  | [] => rfl
  | c :: cs => by simp [containsSubL, startsWithL]

theorem containsSubL_append_left (pat : List Char) : ∀ s w : List Char,
    containsSubL pat s = true → containsSubL pat (s ++ w) = true := by
  intro s
  induction s with
  | nil =>
    intro w h
    cases pat with
    | nil => exact containsSubL_nil_pat w
    | cons p ps => simp [containsSubL, startsWithL] at h
  | cons c cs ih =>
    intro w h
    simp only [containsSubL, Bool.or_eq_true] at h
    rcases h with h | h
    · simp only [List.cons_append, containsSubL, Bool.or_eq_true]
      exact Or.inl (startsWithL_append pat _ w h)
    · simp only [List.cons_append, containsSubL, Bool.or_eq_true]
      exact Or.inr (ih w h)

theorem containsSubL_append_right (pat : List Char) : ∀ s w : List Char,
    containsSubL pat w = true → containsSubL pat (s ++ w) = true := by
  intro s
  induction s with
  | nil => intro w h; exact h
  | cons c cs ih =>
    intro w h
    simp only [List.cons_append, containsSubL, Bool.or_eq_true]
    exact Or.inr (ih w h)

/-- A positive scan means the lowered subject holds one of the two
pattern substrings. -/
theorem scanPort_contains : ∀ (l : List Char) (v : Nat), scanPort l = some v →
    containsSubL portPat (lowerList l) = true ∨
    containsSubL netPortPat (lowerList l) = true := by
  intro l
  induction l with
  | nil => intro v h; cases h
  | cons c cs ih =>
    intro v h
    rw [scanPort_cons] at h
    cases hm : matchPortValAt (c :: cs) with
    | some m =>
      unfold matchPortValAt matchPortAt at hm
      cases hp : matchLit portPat (c :: cs) with
      | some rest =>
        exact Or.inl (containsSubL_of_startsWith _ _ (startsWithL_of_matchLit _ _ _ hp))
      | none =>
        rw [hp] at hm
        cases hn : matchLit netPortPat (c :: cs) with
        | some rest =>
          exact Or.inr (containsSubL_of_startsWith _ _ (startsWithL_of_matchLit _ _ _ hn))
        | none =>
          rw [hn] at hm
          exact absurd hm (by simp)
    | none =>
      rw [hm] at h
      rcases ih v h with h1 | h1
      · left
        show containsSubL portPat (Char.toLower c :: lowerList cs) = true
        simp [containsSubL, h1]
      · right
        show containsSubL netPortPat (Char.toLower c :: lowerList cs) = true
        simp [containsSubL, h1]

theorem scanPort_none_of_hasPortParam_false (custom : String)
    (h : hasPortParam custom = false) : scanPort custom.toList = none := by
  cases hv : scanPort custom.toList with
  | none => rfl
  | some v =>
    rcases scanPort_contains _ v hv with h1 | h1
    · rw [hasPortParam, h1] at h
      simp at h
    · rw [hasPortParam, h1] at h
      simp at h

theorem isPortToken_scan (t : String) (h : isPortToken t = true) :
    ∃ v, scanPort t.toList = some v := by
  unfold isPortToken at h
  cases hm : matchPortAt t.toList with
  | none => rw [hm] at h; exact Bool.noConfusion h
  | some pr =>
    obtain ⟨v, rest⟩ := pr
    cases rest with
    | nil =>
      refine ⟨v, ?_⟩
      cases hl : t.toList with
      | nil =>
        rw [hl] at hm
        rw [show matchPortAt [] = none from rfl] at hm
        exact Option.noConfusion hm
      | cons c cs =>
        rw [hl] at hm
        rw [scanPort_cons]
        rw [show matchPortValAt (c :: cs) = some v from by
          rw [matchPortValAt, hm]; rfl]
    | cons x xs =>
      rw [hm] at h
      exact Bool.noConfusion h

/-- Substring containment lifts from one token to the space-joined
concatenation. -/
theorem containsSubL_charsJoin (pat : List Char) : ∀ (ts : List (List Char)) (t : List Char),
    t ∈ ts → containsSubL pat (lowerList t) = true →
    containsSubL pat (lowerList (charsJoin ts)) = true := by
  intro ts
  induction ts with
  | nil => intro t ht _; cases ht
  | cons t0 rest ih =>
    intro t ht hc
    cases rest with
    | nil =>
      have := List.mem_singleton.mp ht
      subst this
      exact hc
    | cons u rest2 =>
      show containsSubL pat (lowerList (t0 ++ ' ' :: charsJoin (u :: rest2))) = true
      rcases List.mem_cons.mp ht with heq | ht2
      · subst heq
        rw [lowerList, List.map_append]
        exact containsSubL_append_left pat _ _ hc
      · rw [lowerList, List.map_append, List.map_cons]
        refine containsSubL_append_right pat _ _ ?_
        refine containsSubL_append_right pat [Char.toLower ' '] _ ?_
        exact ih t ht2 hc

theorem mem_charsJoin_of_mem : ∀ (ts : List (List Char)) (t : List Char) (c : Char),
    t ∈ ts → c ∈ t → c ∈ charsJoin ts := by
  intro ts
  induction ts with
  | nil => intro t c ht _; cases ht
  | cons t0 rest ih =>
    intro t c ht hc
    cases rest with
    | nil =>
      have := List.mem_singleton.mp ht
      subst this
      exact hc
    | cons u rest2 =>
      show c ∈ t0 ++ ' ' :: charsJoin (u :: rest2)
      rcases List.mem_cons.mp ht with heq | ht2
      · subst heq
        exact List.mem_append_left _ hc
      · exact List.mem_append_right _ (List.mem_cons_of_mem _ (ih t c ht2 hc))

theorem firstScan_some : ∀ (ts : List (List Char)) (t : List Char),
    t ∈ ts → ∀ v, scanPort t = some v → ∃ m, firstScan ts = some m := by
  intro ts
  induction ts with
  | nil => intro t ht; cases ht
  | cons t0 rest ih =>
    intro t ht v hv
    rcases List.mem_cons.mp ht with heq | ht2
    · subst heq
      exact ⟨v, by simp [firstScan, hv]⟩
    · cases h0 : scanPort t0 with
      | some w => exact ⟨w, by simp [firstScan, h0]⟩
      | none =>
        obtain ⟨m, hm⟩ := ih t ht2 v hv
        exact ⟨m, by simp [firstScan, h0, hm]⟩

/-! Decimal rendering: the digits of `Nat.repr` parse back to the
number, are all digit characters, and are nonempty — needed to read
the default `"-Port=" ++ toString cfg.port` token back. -/

theorem digitChar_facts : ∀ m, m < 10 →
    (Nat.digitChar m).toNat - 48 = m ∧ (Nat.digitChar m).isDigit = true := by decide

theorem digitsVal_append_last (xs : List Char) (c : Char) :
    digitsVal (xs ++ [c]) = 10 * digitsVal xs + (c.toNat - 48) := by
  unfold digitsVal
  rw [List.foldl_append]
  rfl

theorem toDigitsCore_acc : ∀ (fuel n : Nat) (acc : List Char),
    Nat.toDigitsCore 10 fuel n acc = Nat.toDigitsCore 10 fuel n [] ++ acc := by
  intro fuel
  induction fuel with
  | zero => intro n acc; rfl
  | succ fuel ih =>
    intro n acc
    simp only [Nat.toDigitsCore]
    by_cases h : n / 10 = 0
    · rw [if_pos h, if_pos h]
      rfl
    · rw [if_neg h, if_neg h, ih (n / 10) (Nat.digitChar (n % 10) :: acc),
        ih (n / 10) [Nat.digitChar (n % 10)], List.append_assoc]
      rfl

theorem toDigitsCore_fuel : ∀ (n fuel₁ fuel₂ : Nat), n < fuel₁ → n < fuel₂ →
    Nat.toDigitsCore 10 fuel₁ n [] = Nat.toDigitsCore 10 fuel₂ n [] := by
  intro n
  induction n using Nat.strong_induction_on with
  | _ n ih =>
    intro fuel₁ fuel₂ h₁ h₂
    cases fuel₁ with
    | zero => omega
    | succ f₁ =>
      cases fuel₂ with
      | zero => omega
      | succ f₂ =>
        simp only [Nat.toDigitsCore]
        by_cases h : n / 10 = 0
        · rw [if_pos h, if_pos h]
        · rw [if_neg h, if_neg h,
            toDigitsCore_acc f₁ (n / 10) [Nat.digitChar (n % 10)],
            toDigitsCore_acc f₂ (n / 10) [Nat.digitChar (n % 10)]]
          have hd : n / 10 < n := Nat.div_lt_self (by omega) (by omega)
          rw [ih (n / 10) hd f₁ f₂ (by omega) (by omega)]

theorem digitsVal_toDigits : ∀ n : Nat, digitsVal (Nat.toDigits 10 n) = n := by
  intro n
  induction n using Nat.strong_induction_on with
  | _ n ih =>
    unfold Nat.toDigits
    simp only [Nat.toDigitsCore]
    by_cases h : n / 10 = 0
    · rw [if_pos h]
      have hn : n < 10 := by omega
      have hval := (digitChar_facts (n % 10) (Nat.mod_lt _ (by omega))).1
      show digitsVal [Nat.digitChar (n % 10)] = n
      unfold digitsVal
      simp only [List.foldl_cons, List.foldl_nil, Nat.mul_zero, Nat.zero_add]
      rw [hval, Nat.mod_eq_of_lt hn]
    · rw [if_neg h, toDigitsCore_acc]
      have hd : n / 10 < n := Nat.div_lt_self (by omega) (by omega)
      have hfe : Nat.toDigitsCore 10 n (n / 10) [] = Nat.toDigits 10 (n / 10) := by
        unfold Nat.toDigits
        exact toDigitsCore_fuel (n / 10) n (n / 10 + 1) (by omega) (by omega)
      rw [hfe, digitsVal_append_last, ih (n / 10) hd]
      have h10 := (digitChar_facts (n % 10) (Nat.mod_lt _ (by omega))).1
      omega

theorem toDigits_all_digits : ∀ n : Nat, ∀ c ∈ Nat.toDigits 10 n, c.isDigit = true := by
  intro n
  induction n using Nat.strong_induction_on with
  | _ n ih =>
    intro c hc
    unfold Nat.toDigits at hc
    simp only [Nat.toDigitsCore] at hc
    by_cases h : n / 10 = 0
    · rw [if_pos h] at hc
      have := List.mem_singleton.mp hc
      subst this
      exact (digitChar_facts (n % 10) (Nat.mod_lt _ (by omega))).2
    · rw [if_neg h, toDigitsCore_acc] at hc
      have hd : n / 10 < n := Nat.div_lt_self (by omega) (by omega)
      have hfe : Nat.toDigitsCore 10 n (n / 10) [] = Nat.toDigits 10 (n / 10) := by
        unfold Nat.toDigits
        exact toDigitsCore_fuel (n / 10) n (n / 10 + 1) (by omega) (by omega)
      rw [hfe] at hc
      rcases List.mem_append.mp hc with h1 | h1
      · exact ih (n / 10) hd c h1
      · have := List.mem_singleton.mp h1
        subst this
        exact (digitChar_facts (n % 10) (Nat.mod_lt _ (by omega))).2

theorem toDigits_ne_nil (n : Nat) : Nat.toDigits 10 n ≠ [] := by
  unfold Nat.toDigits
  simp only [Nat.toDigitsCore]
  by_cases h : n / 10 = 0
  · rw [if_pos h]
    exact List.cons_ne_nil _ _
  · rw [if_neg h, toDigitsCore_acc]
    simp

theorem toString_nat_toList (n : Nat) : (toString n).toList = Nat.toDigits 10 n := rfl

/-- The default `-Port={cfg.port}` argument of `build_command` carries
exactly the configured port. -/
theorem scanPort_defaultPort (port : Nat) :
    scanPort ("-Port=" ++ toString port).toList = some port := by
  have hl : ("-Port=" ++ toString port).toList =
      '-' :: 'P' :: 'o' :: 'r' :: 't' :: '=' :: Nat.toDigits 10 port := by
    show (("-Port=" : String) ++ toString port).data = _
    rw [String.data_append]
    rw [show ("-Port=" : String).data = ['-', 'P', 'o', 'r', 't', '='] from rfl]
    rw [show (toString port).data = Nat.toDigits 10 port from rfl]
    rfl
  rw [hl, scanPort_dashPort _ (toDigits_ne_nil port) (toDigits_all_digits port),
    digitsVal_toDigits]

/-- C9: `build_command` appends the default `-Port={configured port}`
argument iff the lowercased custom parameters contain neither
`"-port="` nor `"-netport="` (this is the function's guard, and the
two cases below exercise both sides of it); hence the port carried by
the built command equals `effective_port` whenever the custom
parameters either contain no such substring, or contain a well-formed
`-Port=N`/`-NetPort=N` token.  Modelling hypotheses: `toks` stands for
`shlex.split(custom_params)`, pinned down by `hshlex`/`htok` to the
quoting-free case where `shlex` is plain whitespace splitting; the
resolved executable and the project path carry no port-shaped
substring of their own (`hexe`/`hproj`). -/
theorem C9_port_agreement (res : Option String) (toks : List String) (cfg : ServerConfig)
    (hshlex : cfg.custom_params.toList = charsJoin (toks.map String.toList))
    (htok : ∀ t ∈ toks, t.toList ≠ [] ∧ ∀ c ∈ t.toList, c.isWhitespace = false)
    (hexe : scanPort (res.getD cfg.engine_path).toList = none)
    (hproj : scanPort cfg.project_path.toList = none)
    (hcases : hasPortParam cfg.custom_params = false ∨ ∃ t ∈ toks, isPortToken t = true) :
    carriedPort (build_command res toks cfg) = some (effective_port cfg) := by
  have hf1 : scanPort ("-server" : String).toList = none := by decide
  have hf2 : scanPort ("-unattended" : String).toList = none := by decide
  have hf3 : scanPort ("-stdout" : String).toList = none := by decide
  have hf4 : scanPort ("-FullStdOutLogOutput" : String).toList = none := by decide
  rcases hcases with hA | hB
  · -- no port-shaped substring: the default token is appended and wins
    have hscan : scanPort cfg.custom_params.toList = none :=
      scanPort_none_of_hasPortParam_false _ hA
    have heff : effective_port cfg = cfg.port := by rw [effective_port_eq, hscan]
    rw [heff]
    simp only [build_command]
    rw [if_neg (show ¬(hasPortParam cfg.custom_params = true) from by simp [hA])]
    by_cases hp : cfg.project_path = ""
    · rw [if_pos hp]
      simp only [serverFlags, List.nil_append, List.append_assoc, List.cons_append,
        List.singleton_append]
      rw [carriedPort_none_cons _ _ hexe, carriedPort_none_cons _ _ hf1,
        carriedPort_none_cons _ _ hf2, carriedPort_none_cons _ _ hf3,
        carriedPort_none_cons _ _ hf4, carriedPort_cons, scanPort_defaultPort]
    · rw [if_neg hp]
      simp only [serverFlags, List.nil_append, List.append_assoc, List.cons_append,
        List.singleton_append]
      rw [carriedPort_none_cons _ _ hexe, carriedPort_none_cons _ _ hproj,
        carriedPort_none_cons _ _ hf1, carriedPort_none_cons _ _ hf2,
        carriedPort_none_cons _ _ hf3, carriedPort_none_cons _ _ hf4,
        carriedPort_cons, scanPort_defaultPort]
  · -- a well-formed port token: no default token; the custom tokens win
    obtain ⟨t, htmem, htokport⟩ := hB
    obtain ⟨v, hscan_t⟩ := isPortToken_scan t htokport
    have hcont := scanPort_contains t.toList v hscan_t
    have hmem' : t.toList ∈ toks.map String.toList := List.mem_map_of_mem _ htmem
    have hppTrue : hasPortParam cfg.custom_params = true := by
      unfold hasPortParam
      rw [hshlex]
      rcases hcont with h1 | h1
      · rw [containsSubL_charsJoin portPat (toks.map String.toList) t.toList hmem' h1]
        rfl
      · rw [containsSubL_charsJoin netPortPat (toks.map String.toList) t.toList hmem' h1]
        simp
    have hst : stripNonempty cfg.custom_params = true := by
      obtain ⟨hne, hws⟩ := htok t htmem
      obtain ⟨c, hcmem⟩ := List.exists_mem_of_ne_nil t.toList hne
      unfold stripNonempty
      rw [List.any_eq_true]
      refine ⟨c, ?_, ?_⟩
      · rw [hshlex]
        exact mem_charsJoin_of_mem _ _ _ hmem' hcmem
      · rw [hws c hcmem]
        rfl
    obtain ⟨m, hm⟩ : ∃ m, scanPort cfg.custom_params.toList = some m := by
      rw [hshlex, scanPort_charsJoin]
      exact firstScan_some (toks.map String.toList) t.toList hmem' v hscan_t
    have heff : effective_port cfg = m := by rw [effective_port_eq, hm]
    rw [heff]
    have hcar : carriedPort toks = some m := by
      rw [carriedPort_eq_firstScan, ← scanPort_charsJoin, ← hshlex, hm]
    simp only [build_command]
    rw [if_pos hppTrue, if_pos hst]
    simp only [List.append_nil]
    by_cases hp : cfg.project_path = ""
    · rw [if_pos hp]
      simp only [serverFlags, List.nil_append, List.append_assoc, List.cons_append,
        List.singleton_append]
      rw [carriedPort_none_cons _ _ hexe, carriedPort_none_cons _ _ hf1,
        carriedPort_none_cons _ _ hf2, carriedPort_none_cons _ _ hf3,
        carriedPort_none_cons _ _ hf4, hcar]
    · rw [if_neg hp]
      simp only [serverFlags, List.nil_append, List.append_assoc, List.cons_append,
        List.singleton_append]
      rw [carriedPort_none_cons _ _ hexe, carriedPort_none_cons _ _ hproj,
        carriedPort_none_cons _ _ hf1, carriedPort_none_cons _ _ hf2,
        carriedPort_none_cons _ _ hf3, carriedPort_none_cons _ _ hf4, hcar]

/-- A config whose custom arguments are exactly one well-formed
`-Port=` token. -/
def cfgW : ServerConfig :=
  { name := "srv"
    engine_path := "C:/UE"
    project_path := "game.uproject"
    port := 7777
    custom_params := "-Port=9000"
    id := "id2" }

/-- Witness for C9 at a config carrying the single token `-Port=9000`. -/
theorem C9_port_agreement_witness :
    isPortToken "-Port=9000" = true ∧
    carriedPort (build_command (some "C:/UE/UnrealEditor.exe") ["-Port=9000"] cfgW) =
      some (effective_port cfgW) :=
  ⟨by decide,
   C9_port_agreement (some "C:/UE/UnrealEditor.exe") ["-Port=9000"] cfgW
     (by decide) (by decide) (by decide) (by decide)
     (Or.inr ⟨"-Port=9000", by decide, by decide⟩)⟩

end ULSM
